import Mathlib

/-!
Shallow embedding of three Ansible modules and proofs about their
reconciliation and query logic:

* `src/cloud/amazon/elasticache_tag.py` — tag-state reconciler (`get_tags`,
  `tags_action`, `add`, `remove`);
* `src/cloud/amazon/ec2_asg_facts.py` — query pipeline (`match_asg_tags`,
  `find_asgs` normalization, `main` result phase);
* `src/cloud/amazon/ec2_asg_find.py` — query pipeline (`search`, `main`
  result phase).

Python dictionaries with string keys are embedded as association lists
(`List (String × α)`) whose keys are unique in every state that a Python
dict can actually reach; lookup takes the first binding and insertion
overwrites in place.  The boto3/boto client is embedded as an explicit
state (`Client`): the resource's live tag set plus a flag saying whether
the read call succeeds.  Remote mutation calls are recorded explicitly as
`ApiCall` values so that theorems can speak about which requests each
reconciliation issues.  Mutation calls themselves are modelled as
succeeding (the spec treats the transport as reliable); the one failure
mode the claims exercise — a failed tag fetch — is modelled by
`Client.fetchOk`.
-/

set_option autoImplicit false

universe u

/-! ## Association-list model of Python dicts -/

/-- First-match lookup in an association list: `d[k]` / `d.get(k)` /
`k in d` for an embedded Python dict. -/
def alookup {α : Type u} (d : List (String × α)) (k : String) : Option α :=
  match d with
  | [] => none
  | kv :: rest => if kv.1 == k then some kv.2 else alookup rest k

/-- Python dict assignment `d[k] = v`: overwrite the binding of `k` in
place when present, append it otherwise. -/
def dinsert {α : Type u} (d : List (String × α)) (k : String) (v : α) :
    List (String × α) :=
  match d with
  | [] => [(k, v)]
  | kv :: rest => if kv.1 == k then (k, v) :: rest else kv :: dinsert rest k v

/-- All bindings of key `k` removed: the effect of `d.pop(k)` (and of the
remote `remove_tags_from_resource` call on one key). -/
def dremove {α : Type u} (d : List (String × α)) (k : String) :
    List (String × α) :=
  d.filter (fun kv => !(kv.1 == k))

/-- Python `d.pop(k)` with no default: `none` models the `KeyError` raised
when `k` is absent. -/
def dpop {α : Type u} (d : List (String × α)) (k : String) :
    Option (List (String × α)) :=
  if (alookup d k).isSome then some (dremove d k) else none

/-- Build a dict by inserting every pair of `ts` into `d` in order:
`for kv in ts: d[kv.1] = kv.2`. -/
def upsertAll {α : Type u} (d ts : List (String × α)) : List (String × α) :=
  ts.foldl (fun acc kv => dinsert acc kv.1 kv.2) d

/-- Sequential `d.pop(k)` over a list of keys, propagating the first
`KeyError` (elasticache_tag.py lines 360-361). -/
def popAll {α : Type u} (d : List (String × α)) (keys : List String) :
    Option (List (String × α)) :=
  match keys with
  | [] => some d
  | k :: rest =>
    match dpop d k with
    | none => none
    | some d' => popAll d' rest

/-! ## elasticache_tag.py — data model -/

/-- A tag dictionary / AWS TagList: both shapes carry (key, value) pairs,
so both are embedded as `List (String × String)`. -/
abbrev StrDict := List (String × String)

/-- `make_tags_in_proper_format` (lines 121-140): AWS TagList →
dict keyed by tag key, built by repeated dict assignment. -/
def make_tags_in_proper_format (tags : StrDict) : StrDict :=
  upsertAll [] tags

/-- `make_tags_in_aws_format` (lines 142-171): dict → list of
`{Key, Value}` pairs, in dict iteration order.  On this representation it
rebuilds the same list of pairs. -/
def make_tags_in_aws_format (tags : StrDict) : StrDict :=
  tags.map (fun kv => (kv.1, kv.2))

/-- The collaborator client: the resource's live tag set (keyed by tag
key, unique keys — an AWS invariant) and whether
`list_tags_for_resource` succeeds. -/
structure Client where
  tags : StrDict
  fetchOk : Bool
deriving DecidableEq, Repr

/-- A remote mutation request issued by the reconciler. -/
inductive ApiCall where
  | addTags (tags : StrDict)
  | removeTags (keys : List String)
deriving DecidableEq, Repr

/-- `get_tags` (lines 173-213): returns `(success, err_msg, TagList)`.
On a transport failure `success = false` and `results` stays empty.
`add`/`remove` always call it with `check_mode=False`, so the DryRunMode
branch is not taken on the paths modelled here. -/
def get_tags (c : Client) : Bool × String × StrDict :=
  if c.fetchOk then (true, "", c.tags)
  else (false, "fetch failed", [])

/-- Effect of a mutation request on the remote state:
`add_tags_to_resource` upserts each listed tag, `remove_tags_from_resource`
deletes the listed keys. -/
def applyCall (c : Client) (call : ApiCall) : Client :=
  match call with
  | ApiCall.addTags ts => { c with tags := upsertAll c.tags ts }
  | ApiCall.removeTags ks =>
      { c with tags := c.tags.filter (fun kv => !(ks.contains kv.1)) }

/-- `tags_action(..., action='create', ...)` (lines 215-266): issue one
`add_tags_to_resource` request carrying all the listed tags, unless in
check mode.  Returns `(success, err_msg)`, the new remote state, and the
requests issued. -/
def tags_action_create (c : Client) (tags : StrDict) (check_mode : Bool) :
    (Bool × String) × Client × List ApiCall :=
  if check_mode then ((true, ""), c, [])
  else ((true, ""), applyCall c (ApiCall.addTags tags), [ApiCall.addTags tags])

/-- `tags_action(..., action='delete', ...)` (lines 215-266): issue one
`remove_tags_from_resource` request carrying `tags.keys()`, unless in
check mode. -/
def tags_action_delete (c : Client) (tags : StrDict) (check_mode : Bool) :
    (Bool × String) × Client × List ApiCall :=
  if check_mode then ((true, ""), c, [])
  else
    let keys := tags.map Prod.fst
    ((true, ""), applyCall c (ApiCall.removeTags keys), [ApiCall.removeTags keys])

/-- The loop of `add` (lines 301-307): keys of the desired dict that are
absent from the current dict or present with a different value. -/
def tags_to_update (desired current : StrDict) : StrDict :=
  desired.foldl
    (fun acc kv =>
      match alookup current kv.1 with
      | some v => if v != kv.2 then dinsert acc kv.1 kv.2 else acc
      | none => dinsert acc kv.1 kv.2)
    []

/-- The loop of `remove` (lines 365-368): keys of the desired dict that
are present in the current dict. -/
def tags_to_delete (desired current : StrDict) : StrDict :=
  desired.foldl
    (fun acc kv =>
      if (alookup current kv.1).isSome then dinsert acc kv.1 kv.2 else acc)
    []

/-- Result record of `add`/`remove`: the `(success, changed, err_msg,
tags, diff)` tuple they return.  The diff dict is `none` outside diff
mode.  Error messages are abridged to constants; no claim depends on
their text. -/
structure ReconResult where
  success : Bool
  changed : Bool
  err_msg : String
  tags : StrDict
  diff_before : Option StrDict
  diff_after : Option StrDict
deriving DecidableEq, Repr

/-- `add` (lines 268-328).  Steps, following the source line by line:
fetch the current TagList (the `(retrieve_success, retrieve_msg, _)`
result of `get_tags` is assigned but never consulted, exactly as in the
source); in diff mode report `before`/`after` without mutating; otherwise
compute `tags_to_update` and, when it is non-empty, issue one create
request carrying ALL desired tags, then re-fetch.  No key is ever slated
for removal on any path of `add`. -/
def add (c : Client) (tags : StrDict) (check_mode diff_mode : Bool) :
    ReconResult × Client × List ApiCall :=
  let fetched := get_tags c
  let current_raw := fetched.2.2
  if diff_mode then
    ({ success := true, changed := false, err_msg := ""
       tags := tags
       diff_before := some (make_tags_in_proper_format current_raw)
       diff_after := some tags }, c, [])
  else
    let current_tags := make_tags_in_proper_format current_raw
    let upd := tags_to_update tags current_tags
    if upd = [] then
      let refetched := get_tags c
      ({ success := true, changed := false, err_msg := "Nothing to update"
         tags := make_tags_in_proper_format refetched.2.2
         diff_before := none, diff_after := none }, c, [])
    else
      let acted := tags_action_create c (make_tags_in_aws_format tags) check_mode
      let c1 := acted.2.1
      let refetched := get_tags c1
      ({ success := acted.1.1, changed := acted.1.1, err_msg := "Tags updated"
         tags := make_tags_in_proper_format refetched.2.2
         diff_before := none, diff_after := none }, c1, acted.2.2)

/-- `remove` (lines 330-387).  In diff mode `after` is built by popping
every desired key from a copy of the current dict with `dict.pop(key)`
and no default, so an absent key raises `KeyError`: the whole call is
modelled as `none` there.  In non-diff mode compute `tags_to_delete` and,
when it is non-empty, issue one delete request carrying its keys, then
re-fetch. -/
def remove (c : Client) (tags : StrDict) (check_mode diff_mode : Bool) :
    Option (ReconResult × Client × List ApiCall) :=
  let fetched := get_tags c
  let current_raw := fetched.2.2
  if diff_mode then
    let before := make_tags_in_proper_format current_raw
    match popAll before (tags.map Prod.fst) with
    | none => none
    | some after =>
        some ({ success := true, changed := false, err_msg := ""
                tags := tags
                diff_before := some before
                diff_after := some after }, c, [])
  else
    let current_tags := make_tags_in_proper_format current_raw
    let dels := tags_to_delete tags current_tags
    if dels = [] then
      let refetched := get_tags c
      some ({ success := true, changed := false
              err_msg := "Tags do not exist for resource"
              tags := make_tags_in_proper_format refetched.2.2
              diff_before := none, diff_after := none }, c, [])
    else
      let acted := tags_action_delete c dels check_mode
      let c1 := acted.2.1
      let refetched := get_tags c1
      some ({ success := acted.1.1, changed := acted.1.1, err_msg := ""
              tags := make_tags_in_proper_format refetched.2.2
              diff_before := none, diff_after := none }, c1, acted.2.2)


/-! ## ec2_asg_facts.py — key canonicalizer and normalization -/

/-- ASCII uppercase test, the `[A-Z]` character class. -/
def isUp (c : Char) : Bool := 65 ≤ c.toNat && c.toNat ≤ 90

/-- Python 2 `str.lower()` on one byte: shift `A`-`Z` down by 32, leave
everything else alone. -/
def py2Lower (c : Char) : Char :=
  if isUp c then Char.ofNat (c.toNat + 32) else c

/-- Tail of the underscore-insertion pass, past position 1: an underscore
goes before an uppercase char whose predecessor is not uppercase (the
start of a new `[A-Z]+` run). -/
def underscoreTail (prev : Char) : List Char → List Char
  | [] => []
  | c :: rest =>
    if isUp c && !isUp prev then '_' :: c :: underscoreTail c rest
    else c :: underscoreTail c rest

/-- `re.compile('(?!^)([A-Z]+)').sub(r'_\1', key)` (lines 320, 327): the
scanner can never match at position 0, so a run starting there is entered
at position 1; from position 2 on, an underscore goes exactly before each
uppercase char starting a new run. -/
def insertUnderscores : List Char → List Char
  | [] => []
  | [c] => [c]
  | c0 :: c1 :: rest =>
    if isUp c1 then c0 :: '_' :: c1 :: underscoreTail c1 rest
    else c0 :: c1 :: underscoreTail c1 rest

/-- The key canonicalizer of `find_asgs` (line 327):
`camel_prog.sub(r'_\1', key).lower()`. -/
def canonKey (s : String) : String :=
  String.mk ((insertUnderscores s.data).map py2Lower)

/-- An embedded Python value, rich enough for the raw provider records
`find_asgs` consumes and the normalized records it emits. -/
inductive PyVal where
  | vNone : PyVal
  | vStr : String → PyVal
  | vInt : Int → PyVal
  | vBool : Bool → PyVal
  | vList : List PyVal → PyVal
  | vDict : List (String × PyVal) → PyVal

/-- A Python dict with string keys and arbitrary values. -/
abbrev PyDict := List (String × PyVal)

/-- The scalar-field loop's key list (lines 322-326).  The source writes
`'PlacementGroup' 'Status'` with no comma between the two literals, and
Python concatenates adjacent string literals, so the loop iterates over
this single key `"PlacementGroupStatus"` — neither `'PlacementGroup'` nor
`'Status'` is ever looked up. -/
def scalarKeys : List String :=
  ["AutoScalingGroupARN", "AutoScalingGroupName", "AvailabilityZones",
   "DefaultCooldown", "DesiredCapacity", "HealthCheckGracePeriod",
   "HealthCheckType", "LaunchConfigurationName", "LoadBalancerNames",
   "MaxSize", "MinSize", "NewInstancesProtectedFromScaleIn",
   "PlacementGroupStatus", "TerminationPolicies"]

/-- The list-field loop's key list (line 333). -/
def listKeys : List String :=
  ["EnabledMetrics", "Instances", "SuspendedProcesses", "Tags"]

/-- Line 338: one nested record rebuilt with canonicalized keys,
`dict((camel_prog.sub(r'_\1', k).lower(), v) for k, v in item.iteritems())`.
Items are dicts in every provider response; other shapes would raise in
the source and are returned unchanged here (no claim touches them). -/
def normalizeItem (item : PyVal) : PyVal :=
  match item with
  | PyVal.vDict kvs =>
      PyVal.vDict (kvs.foldl (fun acc kv => dinsert acc (canonKey kv.1) kv.2) [])
  | other => other

/-- Lines 336-338: a list-valued field rebuilt item by item. -/
def normalizeList (v : PyVal) : PyVal :=
  match v with
  | PyVal.vList items => PyVal.vList (items.map normalizeItem)
  | other => other

/-- The normalization body of `find_asgs` (lines 319-343), applied to one
raw record that passed the filters.  `none` models an uncaught exception:
the `KeyError` of `asg['CreatedTime']` (line 319) or the attribute error
of `.split` on a non-string `VPCZoneIdentifier` (line 341).  The
`.isoformat()` call on the creation time is abstracted away (its value is
carried through unchanged); no claim depends on its shape.  Scalar keys
absent from the raw record yield a binding to `None`; list keys absent
from the raw record yield NO binding (the `if key in asg` on line 334 has
no `else` branch). -/
def find_asgs_normalize (asg : PyDict) : Option PyDict :=
  match alookup asg "CreatedTime" with
  | none => none
  | some ct =>
    let d0 : PyDict := [("created_time", ct)]
    let d1 := scalarKeys.foldl
      (fun acc key =>
        dinsert acc (canonKey key)
          (match alookup asg key with
           | some v => v
           | none => PyVal.vNone))
      d0
    let d2 := listKeys.foldl
      (fun acc key =>
        match alookup asg key with
        | some v => dinsert acc (canonKey key) (normalizeList v)
        | none => acc)
      d1
    match alookup asg "VPCZoneIdentifier" with
    | some (PyVal.vStr s) =>
        some (dinsert d2 "vpc_zone_identifier"
          (PyVal.vList ((s.splitOn ",").map PyVal.vStr)))
    | some _ => none
    | none => some (dinsert d2 "vpc_zone_identifier" PyVal.vNone)

/-- Key-presence probe on the normalized record: `false` both when the
key is missing from the output and when normalization itself fails. -/
def normalizedHasKey (asg : PyDict) (k : String) : Bool :=
  match find_asgs_normalize asg with
  | some d => (alookup d k).isSome
  | none => false

/-- Probe for a key bound to `None` in the normalized record. -/
def normalizedKeyIsNone (asg : PyDict) (k : String) : Bool :=
  match find_asgs_normalize asg with
  | some d =>
    match alookup d k with
    | some PyVal.vNone => true
    | _ => false
  | none => false

/-! ## ec2_asg_facts.py / ec2_asg_find.py — matching -/

/-- `match_asg_tags` (lines 216-222): the resource (given by its raw tag
list of `(Key, Value)` pairs) passes when every filter pair finds an
exactly equal tag; the first filter pair with no equal tag returns
`False` (the `for`/`else`). -/
def match_asg_tags (tags_to_match asgTags : List (String × String)) : Bool :=
  tags_to_match.all
    (fun kv => asgTags.any (fun tag => kv.1 == tag.1 && kv.2 == tag.2))

/-- `re.search(r'^' + name, s)` for a `name` of plain (non-metacharacter)
characters, as built on ec2_asg_facts.py line 311 and ec2_asg_find.py
line 220: `search` tries every start position, and the `^` anchor (no
MULTILINE flag) admits position 0 only, where the rest of the pattern is
the literal `name`.  `true` iff the match object is truthy. -/
def reSearchAnchored (pat s : List Char) : Bool :=
  (List.range (s.length + 1)).any
    (fun i => i == 0 && pat.isPrefixOf (List.drop i s))

/-- The name test of `find_asgs` (ec2_asg_facts.py lines 310-313):
a falsy filter (`None` / empty string) matches everything, otherwise the
anchored regex search decides. -/
def name_matches (name asgName : String) : Bool :=
  if name.isEmpty then true
  else reSearchAnchored name.data asgName.data

/-- `search` of ec2_asg_find.py (lines 202-223), restricted to the name
test: keeps, in inventory order, the groups whose name the anchored
search matches.  (The attribute harvest into a dict per group carries the
name through unchanged; the model keeps just the names.) -/
def ec2_asg_find_search (asgNames : List String) (name : String) : List String :=
  asgNames.filter (fun n => reSearchAnchored name.data n.data)

/-! ## main result phase of the two query modules -/

/-- Observable outcome of the result phase of `main`. -/
inductive Outcome where
  /-- Uncaught `NameError`: a message format references the undefined
  variable `name` (ec2_asg_facts.py line 382, ec2_asg_find.py lines 401
  and 406), raised before any `fail_json` on that path. -/
  | nameError : Outcome
  /-- `module.fail_json(msg=...)` with no extra payload. -/
  | failNoResults (msg : String) : Outcome
  /-- Uncaught `UnboundLocalError`: `exit_json(**output)` with `output`
  never assigned (unreachable under the documented argument choices). -/
  | unboundLocal : Outcome
  /-- `module.exit_json(changed=..., rc=0, results=...)`. -/
  | exitJson (changed : Bool) (results : List String) : Outcome
deriving DecidableEq, Repr

/-- Result phase of ec2_asg_facts.py `main` (lines 378-403), as a
function of the matched result list (represented by the matched names),
`limit_results` and `no_result_action`.  On the limit-exceeded path the
source computes `asg_names` and then crashes with `NameError` while
formatting `msg` (line 382 references `name`, which is never defined in
that scope), so `fail_json(msg=..., asg_names=...)` is never reached. -/
def facts_main_outcome (results : List String) (limit_results : Int)
    (no_result_action : String) : Outcome :=
  if limit_results > 0 ∧ (results.length : Int) > limit_results then
    Outcome.nameError
  else if no_result_action = "fail" ∧ results = [] then
    Outcome.failNoResults "No results found"
  else if results = [] ∧ no_result_action = "success" then
    Outcome.exitJson false results
  else if results ≠ [] then
    Outcome.exitJson true results
  else
    Outcome.unboundLocal

/-- Result phase of ec2_asg_find.py `main` (lines 397-423).  Both failure
paths format a message from the undefined variable `name` (lines 401 and
406) and crash with `NameError` before calling `fail_json`. -/
def find_main_outcome (results : List String) (limit_results : Int)
    (no_result_action : String) : Outcome :=
  if limit_results > 0 ∧ (results.length : Int) > limit_results then
    Outcome.nameError
  else if no_result_action = "fail" ∧ results = [] then
    Outcome.nameError
  else if results = [] ∧ no_result_action = "success" then
    Outcome.exitJson false results
  else if results ≠ [] then
    Outcome.exitJson true results
  else
    Outcome.unboundLocal


/-! ## Concrete inputs used by counterexamples and witnesses -/

/-- Scenario A current state: live tags `{Env: prod, Name: x}`. -/
def ecClientA : Client := { tags := [("Env", "prod"), ("Name", "x")], fetchOk := true }

/-- Scenario A desired tags: `{Env: dev, Service: web}`. -/
def ecDesiredA : StrDict := [("Env", "dev"), ("Service", "web")]

/-- A client whose tag fetch fails while the resource actually carries a
tag. -/
def ecClientF : Client := { tags := [("Env", "prod")], fetchOk := false }

/-- A converged client: live tags already equal to `ecDesiredW`. -/
def ecClientW : Client := { tags := [("Env", "dev")], fetchOk := true }

/-- Desired tags for the convergence witness. -/
def ecDesiredW : StrDict := [("Env", "dev")]

/-- Scenario B current state: live tags `{Env: prod}`, fetch succeeds. -/
def ecClientB : Client := { tags := [("Env", "prod")], fetchOk := true }

/-- Scenario B desired-to-remove tags: `{Service: web}`. -/
def ecDesiredB : StrDict := [("Service", "web")]

/-- A raw provider record carrying `CreatedTime`, `PlacementGroup` and
`Status` and nothing else (in particular no `Tags` list). -/
def c5raw : PyDict :=
  [("CreatedTime", PyVal.vStr "2015-11-25T00:05:36"),
   ("PlacementGroup", PyVal.vStr "my-placement-group"),
   ("Status", PyVal.vStr "Delete in progress")]

/-! ## Dictionary lemmas -/

theorem alookup_dinsert_self {α : Type u} (d : List (String × α)) (k : String)
    (v : α) : alookup (dinsert d k v) k = some v := by
  induction d with
  | nil => simp [dinsert, alookup]
  | cons kv rest ih =>
    by_cases h : kv.1 = k
    · simp [dinsert, alookup, h]
    · simp [dinsert, alookup, h, ih]

theorem alookup_dinsert_ne {α : Type u} (d : List (String × α)) (k k' : String)
    (v : α) (h : k' ≠ k) : alookup (dinsert d k v) k' = alookup d k' := by
  induction d with
  | nil => simp [dinsert, alookup, Ne.symm h]
  | cons kv rest ih =>
    by_cases hk : kv.1 = k
    · simp [dinsert, alookup, hk, Ne.symm h]
    · simp [dinsert, alookup, hk, ih]

theorem dinsert_ne_nil {α : Type u} (d : List (String × α)) (k : String)
    (v : α) : dinsert d k v ≠ [] := by
  cases d with
  | nil => simp [dinsert]
  | cons kv rest =>
    by_cases h : kv.1 = k <;> simp [dinsert, h]

theorem alookup_append_of_none {α : Type u} (a b : List (String × α))
    (k : String) (h : alookup a k = none) :
    alookup (a ++ b) k = alookup b k := by
  induction a with
  | nil => simp
  | cons kv rest ih =>
    by_cases hk : kv.1 = k
    · simp [alookup, hk] at h
    · simp [alookup, hk] at h ⊢
      exact ih h

theorem dinsert_eq_append {α : Type u} (d : List (String × α)) (k : String)
    (v : α) (h : alookup d k = none) : dinsert d k v = d ++ [(k, v)] := by
  induction d with
  | nil => simp [dinsert]
  | cons kv rest ih =>
    by_cases hk : kv.1 = k
    · simp [alookup, hk] at h
    · simp [alookup, hk] at h
      simp [dinsert, hk, ih h]

theorem upsertAll_eq_append {α : Type u} :
    ∀ (ts d : List (String × α)), (ts.map Prod.fst).Nodup →
      (∀ kv ∈ ts, alookup d kv.1 = none) → upsertAll d ts = d ++ ts := by
  intro ts
  induction ts with
  | nil => intro d _ _; simp [upsertAll]
  | cons kv rest ih =>
    intro d hnd hnone
    rw [List.map_cons, List.nodup_cons] at hnd
    obtain ⟨hknot, hndr⟩ := hnd
    have h1 : alookup d kv.1 = none := hnone kv (by simp)
    have hstep : dinsert d kv.1 kv.2 = d ++ [kv] := by
      simpa using dinsert_eq_append d kv.1 kv.2 h1
    have hrest : ∀ kv' ∈ rest, alookup (d ++ [kv]) kv'.1 = none := by
      intro kv' hm
      rw [alookup_append_of_none _ _ _ (hnone kv' (by simp [hm]))]
      have hne : kv.1 ≠ kv'.1 := by
        intro he
        exact hknot (he ▸ List.mem_map_of_mem Prod.fst hm)
      simp [alookup, hne]
    have hfold : upsertAll d (kv :: rest) = upsertAll (d ++ [kv]) rest := by
      simp [upsertAll, List.foldl_cons, hstep]
    rw [hfold, ih (d ++ [kv]) hndr hrest]
    simp

theorem make_tags_in_proper_format_eq_self (l : StrDict)
    (h : (l.map Prod.fst).Nodup) : make_tags_in_proper_format l = l := by
  have := upsertAll_eq_append l [] h (by intro kv _; simp [alookup])
  simpa [make_tags_in_proper_format] using this

theorem alookup_upsertAll_of_not_mem {α : Type u} :
    ∀ (ts d : List (String × α)) (k : String), k ∉ ts.map Prod.fst →
      alookup (upsertAll d ts) k = alookup d k := by
  intro ts
  induction ts with
  | nil => intro d k _; simp [upsertAll]
  | cons kv rest ih =>
    intro d k hk
    simp only [List.map_cons, List.mem_cons, not_or] at hk
    have : upsertAll d (kv :: rest) = upsertAll (dinsert d kv.1 kv.2) rest := rfl
    rw [this, ih _ k hk.2, alookup_dinsert_ne _ _ _ _ hk.1]

theorem alookup_upsertAll_mem {α : Type u} :
    ∀ (ts d : List (String × α)) (k : String) (v : α),
      (ts.map Prod.fst).Nodup → (k, v) ∈ ts →
      alookup (upsertAll d ts) k = some v := by
  intro ts
  induction ts with
  | nil => intro d k v _ hm; simp at hm
  | cons kv rest ih =>
    intro d k v hnd hm
    rw [List.map_cons, List.nodup_cons] at hnd
    obtain ⟨hknot, hndr⟩ := hnd
    have hstep : upsertAll d (kv :: rest) = upsertAll (dinsert d kv.1 kv.2) rest := rfl
    rcases List.mem_cons.mp hm with he | hr
    · have hk : k = kv.1 := by rw [← he]
      have hv : v = kv.2 := by rw [← he]
      rw [hstep, alookup_upsertAll_of_not_mem rest _ k (hk ▸ hknot), hk, hv,
        alookup_dinsert_self]
    · exact hstep ▸ ih _ k v hndr hr

theorem mem_keys_dinsert {α : Type u} (d : List (String × α)) (k k' : String)
    (v : α) :
    k' ∈ (dinsert d k v).map Prod.fst ↔ k' ∈ d.map Prod.fst ∨ k' = k := by
  induction d with
  | nil => simp [dinsert]
  | cons kv rest ih =>
    by_cases hk : kv.1 = k
    · subst hk
      simp [dinsert]
      tauto
    · simp [dinsert, hk, ih]
      tauto

theorem keys_nodup_dinsert {α : Type u} (d : List (String × α)) (k : String)
    (v : α) (h : (d.map Prod.fst).Nodup) :
    ((dinsert d k v).map Prod.fst).Nodup := by
  induction d with
  | nil => simp [dinsert]
  | cons kv rest ih =>
    rw [List.map_cons, List.nodup_cons] at h
    by_cases hk : kv.1 = k
    · have : dinsert (kv :: rest) k v = (k, v) :: rest := by
        simp [dinsert, hk]
      rw [this, List.map_cons, List.nodup_cons]
      exact ⟨hk ▸ h.1, h.2⟩
    · have : dinsert (kv :: rest) k v = kv :: dinsert rest k v := by
        simp [dinsert, hk]
      rw [this, List.map_cons, List.nodup_cons]
      refine ⟨?_, ih h.2⟩
      rw [mem_keys_dinsert]
      push_neg
      exact ⟨h.1, hk⟩

theorem keys_nodup_upsertAll {α : Type u} :
    ∀ (ts d : List (String × α)), (d.map Prod.fst).Nodup →
      ((upsertAll d ts).map Prod.fst).Nodup := by
  intro ts
  induction ts with
  | nil => intro d h; simpa [upsertAll] using h
  | cons kv rest ih =>
    intro d h
    exact ih _ (keys_nodup_dinsert d kv.1 kv.2 h)

theorem keys_nodup_proper (l : StrDict) :
    ((make_tags_in_proper_format l).map Prod.fst).Nodup :=
  keys_nodup_upsertAll l [] (by simp)

theorem tags_to_update_aux (current : StrDict) :
    ∀ (desired acc : StrDict),
      desired.foldl
        (fun acc kv =>
          match alookup current kv.1 with
          | some v => if v != kv.2 then dinsert acc kv.1 kv.2 else acc
          | none => dinsert acc kv.1 kv.2)
        acc = [] ↔
      acc = [] ∧ ∀ kv ∈ desired, alookup current kv.1 = some kv.2 := by
  intro desired
  induction desired with
  | nil => intro acc; simp
  | cons kv rest ih =>
    intro acc
    rw [List.foldl_cons, ih]
    rcases h : alookup current kv.1 with _ | v
    · simp [h, dinsert_ne_nil]
    · by_cases hv : v = kv.2
      · simp [h, hv]
      · simp [h, hv, dinsert_ne_nil]

theorem tags_to_update_eq_nil_iff (desired current : StrDict) :
    tags_to_update desired current = [] ↔
      ∀ kv ∈ desired, alookup current kv.1 = some kv.2 := by
  rw [tags_to_update, tags_to_update_aux]
  simp

theorem tags_to_delete_aux (current : StrDict) :
    ∀ (desired acc : StrDict),
      desired.foldl
        (fun acc kv =>
          if (alookup current kv.1).isSome then dinsert acc kv.1 kv.2 else acc)
        acc = [] ↔
      acc = [] ∧ ∀ kv ∈ desired, alookup current kv.1 = none := by
  intro desired
  induction desired with
  | nil => intro acc; simp
  | cons kv rest ih =>
    intro acc
    rw [List.foldl_cons, ih]
    rcases h : alookup current kv.1 with _ | v
    · simp [h]
    · simp [h, dinsert_ne_nil]

theorem tags_to_delete_eq_nil_iff (desired current : StrDict) :
    tags_to_delete desired current = [] ↔
      ∀ kv ∈ desired, alookup current kv.1 = none := by
  rw [tags_to_delete, tags_to_delete_aux]
  simp

theorem tags_to_delete_aux_filter (current : StrDict) :
    ∀ (desired acc : StrDict), (desired.map Prod.fst).Nodup →
      (∀ kv ∈ desired, alookup acc kv.1 = none) →
      desired.foldl
        (fun acc kv =>
          if (alookup current kv.1).isSome then dinsert acc kv.1 kv.2 else acc)
        acc =
      acc ++ desired.filter (fun kv => (alookup current kv.1).isSome) := by
  intro desired
  induction desired with
  | nil => intro acc _ _; simp
  | cons kv rest ih =>
    intro acc hnd hnone
    rw [List.map_cons, List.nodup_cons] at hnd
    obtain ⟨hknot, hndr⟩ := hnd
    rw [List.foldl_cons]
    by_cases h : (alookup current kv.1).isSome
    · rw [if_pos h]
      have hstep : dinsert acc kv.1 kv.2 = acc ++ [kv] := by
        simpa using dinsert_eq_append acc kv.1 kv.2 (hnone kv (by simp))
      have hrest : ∀ kv' ∈ rest, alookup (acc ++ [kv]) kv'.1 = none := by
        intro kv' hm
        rw [alookup_append_of_none _ _ _ (hnone kv' (by simp [hm]))]
        have hne : kv.1 ≠ kv'.1 := by
          intro he
          exact hknot (he ▸ List.mem_map_of_mem Prod.fst hm)
        simp [alookup, hne]
      rw [hstep, ih (acc ++ [kv]) hndr hrest, List.filter_cons, if_pos h]
      simp
    · rw [if_neg h, ih acc hndr (fun kv' hm => hnone kv' (by simp [hm])),
        List.filter_cons, if_neg h]

theorem tags_to_delete_eq_filter (desired current : StrDict)
    (hnd : (desired.map Prod.fst).Nodup) :
    tags_to_delete desired current =
      desired.filter (fun kv => (alookup current kv.1).isSome) := by
  rw [tags_to_delete, tags_to_delete_aux_filter current desired [] hnd
    (fun kv _ => by simp [alookup])]
  simp

theorem alookup_dremove_self {α : Type u} (d : List (String × α))
    (k : String) : alookup (dremove d k) k = none := by
  induction d with
  | nil => simp [dremove, alookup]
  | cons kv rest ih =>
    by_cases h : kv.1 = k
    · simpa [dremove, List.filter_cons, h] using ih
    · simpa [dremove, List.filter_cons, h, alookup] using ih

theorem alookup_dremove_ne {α : Type u} (d : List (String × α))
    (k k' : String) (h : k' ≠ k) :
    alookup (dremove d k) k' = alookup d k' := by
  induction d with
  | nil => simp [dremove, alookup]
  | cons kv rest ih =>
    by_cases hk : kv.1 = k
    · have hstep : dremove (kv :: rest) k = dremove rest k := by
        simp [dremove, List.filter_cons, hk]
      have hne : kv.1 ≠ k' := by rw [hk]; exact Ne.symm h
      rw [hstep, ih]
      simp [alookup, hne]
    · have hstep : dremove (kv :: rest) k = kv :: dremove rest k := by
        simp [dremove, List.filter_cons, hk]
      rw [hstep]
      by_cases hk' : kv.1 = k'
      · simp [alookup, hk']
      · simp [alookup, hk', ih]

theorem popAll_isSome_iff {α : Type u} :
    ∀ (keys : List String) (d : List (String × α)), keys.Nodup →
      ((popAll d keys).isSome ↔ ∀ k ∈ keys, (alookup d k).isSome) := by
  intro keys
  induction keys with
  | nil => intro d _; simp [popAll]
  | cons k rest ih =>
    intro d hnd
    rw [List.nodup_cons] at hnd
    obtain ⟨hknot, hndr⟩ := hnd
    by_cases h : (alookup d k).isSome
    · rw [show popAll d (k :: rest) = popAll (dremove d k) rest by
        simp [popAll, dpop, h]]
      rw [ih _ hndr]
      constructor
      · intro hall
        intro k' hk'
        rcases List.mem_cons.mp hk' with he | hr
        · exact he ▸ h
        · have hne : k' ≠ k := fun he => hknot (he ▸ hr)
          exact (alookup_dremove_ne d k k' hne) ▸ hall k' hr
      · intro hall k' hr
        have hne : k' ≠ k := fun he => hknot (he ▸ hr)
        rw [alookup_dremove_ne d k k' hne]
        exact hall k' (by simp [hr])
    · rw [show popAll d (k :: rest) = none by simp [popAll, dpop, h]]
      simp only [Option.isSome_none, Bool.false_eq_true, false_iff]
      intro hall
      exact h (hall k (by simp))

theorem popAll_eq_filter {α : Type u} :
    ∀ (keys : List String) (d : List (String × α)), keys.Nodup →
      (∀ k ∈ keys, (alookup d k).isSome) →
      popAll d keys = some (d.filter (fun kv => !(keys.contains kv.1))) := by
  intro keys
  induction keys with
  | nil => intro d _ _; simp [popAll]
  | cons k rest ih =>
    intro d hnd hall
    rw [List.nodup_cons] at hnd
    obtain ⟨hknot, hndr⟩ := hnd
    have h : (alookup d k).isSome := hall k (by simp)
    rw [show popAll d (k :: rest) = popAll (dremove d k) rest by
      simp [popAll, dpop, h]]
    have hrest : ∀ k' ∈ rest, (alookup (dremove d k) k').isSome := by
      intro k' hr
      have hne : k' ≠ k := fun he => hknot (he ▸ hr)
      rw [alookup_dremove_ne d k k' hne]
      exact hall k' (by simp [hr])
    rw [ih _ hndr hrest]
    congr 1
    rw [dremove, List.filter_filter]
    apply List.filter_congr
    intro kv _
    simp only [List.contains_cons]
    by_cases h1 : kv.1 = k <;> simp [h1, eq_comm, Bool.and_comm]

/-! ## Canonicalizer lemmas -/

theorem char_toNat_ofNat (n : Nat) (h : n.isValidChar) :
    (Char.ofNat n).toNat = n := by
  simp [Char.ofNat, h, Char.ofNatAux, Char.toNat]
  rfl

theorem isUp_py2Lower (c : Char) : isUp (py2Lower c) = false := by
  by_cases h : isUp c = true
  · have hb : 65 ≤ c.toNat ∧ c.toNat ≤ 90 := by
      simpa [isUp] using h
    have hv : (c.toNat + 32).isValidChar := Or.inl (by omega)
    simp only [py2Lower, h, if_pos]
    simp [isUp, char_toNat_ofNat _ hv]
    omega
  · have hc : isUp c = false := by simpa using h
    simp [py2Lower, hc]

theorem py2Lower_eq_self (c : Char) (h : isUp c = false) : py2Lower c = c := by
  simp [py2Lower, h]

theorem underscoreTail_of_noUp :
    ∀ (l : List Char) (prev : Char), (∀ c ∈ l, isUp c = false) →
      underscoreTail prev l = l := by
  intro l
  induction l with
  | nil => intro prev _; simp [underscoreTail]
  | cons c rest ih =>
    intro prev h
    have hc : isUp c = false := h c (by simp)
    simp [underscoreTail, hc, ih c (fun c' hm => h c' (by simp [hm]))]

theorem insertUnderscores_of_noUp (l : List Char)
    (h : ∀ c ∈ l, isUp c = false) : insertUnderscores l = l := by
  match l with
  | [] => rfl
  | [c] => rfl
  | c0 :: c1 :: rest =>
    have h1 : isUp c1 = false := h c1 (by simp)
    simp [insertUnderscores, h1,
      underscoreTail_of_noUp rest c1 (fun c' hm => h c' (by simp [hm]))]

theorem map_py2Lower_of_noUp (l : List Char)
    (h : ∀ c ∈ l, isUp c = false) : l.map py2Lower = l := by
  induction l with
  | nil => rfl
  | cons c rest ih =>
    simp [py2Lower_eq_self c (h c (by simp)),
      ih (fun c' hm => h c' (by simp [hm]))]

theorem noUp_canonKey (s : String) : ∀ c ∈ (canonKey s).data, isUp c = false := by
  intro c hc
  have : c ∈ (insertUnderscores s.data).map py2Lower := hc
  rcases List.mem_map.mp this with ⟨a, _, ha⟩
  exact ha ▸ isUp_py2Lower a

theorem canonKey_idem (s : String) : canonKey (canonKey s) = canonKey s := by
  have hno : ∀ c ∈ (canonKey s).data, isUp c = false := noUp_canonKey s
  show String.mk ((insertUnderscores (canonKey s).data).map py2Lower) = canonKey s
  rw [insertUnderscores_of_noUp _ hno, map_py2Lower_of_noUp _ hno]

theorem canonKey_fixed (s : String) (h : ∀ c ∈ s.data, isUp c = false) :
    canonKey s = s := by
  show String.mk ((insertUnderscores s.data).map py2Lower) = s
  rw [insertUnderscores_of_noUp _ h, map_py2Lower_of_noUp _ h]

theorem canon_fold_eq_upsertAll {α : Type u} :
    ∀ (kvs : List (String × α)) (acc : List (String × α)),
      (∀ kv ∈ kvs, canonKey kv.1 = kv.1) →
      kvs.foldl (fun acc kv => dinsert acc (canonKey kv.1) kv.2) acc =
        upsertAll acc kvs := by
  intro kvs
  induction kvs with
  | nil => intro acc _; rfl
  | cons kv rest ih =>
    intro acc h
    rw [List.foldl_cons, h kv (by simp),
      ih (dinsert acc kv.1 kv.2) (fun kv' hm => h kv' (by simp [hm]))]
    rfl

/-- The record canonicalization of line 338 leaves an already-canonical
record (snake-case keys, no duplicates) unchanged. -/
theorem normalizeItem_fixed (kvs : List (String × PyVal))
    (hk : ∀ kv ∈ kvs, ∀ c ∈ kv.1.data, isUp c = false)
    (hnd : (kvs.map Prod.fst).Nodup) :
    normalizeItem (PyVal.vDict kvs) = PyVal.vDict kvs := by
  show PyVal.vDict
      (kvs.foldl (fun acc kv => dinsert acc (canonKey kv.1) kv.2) []) =
    PyVal.vDict kvs
  rw [canon_fold_eq_upsertAll kvs []
    (fun kv hm => canonKey_fixed kv.1 (hk kv hm))]
  rw [upsertAll_eq_append kvs [] hnd (fun kv _ => by simp [alookup])]
  simp

/-! ## Search lemmas -/

theorem reSearchAnchored_eq_isPrefixOf (pat s : List Char) :
    reSearchAnchored pat s = pat.isPrefixOf s := by
  cases hp : pat.isPrefixOf s
  · rw [reSearchAnchored]
    rw [List.any_eq_false]
    intro i hi
    rcases Nat.eq_zero_or_pos i with h0 | h0
    · simp [h0, hp]
    · simp [Nat.pos_iff_ne_zero.mp h0]
  · rw [reSearchAnchored]
    rw [List.any_eq_true]
    exact ⟨0, by simp, by simp [hp]⟩

/-! ## Evaluation lemmas for the reconciler -/

theorem make_tags_in_aws_format_id (d : StrDict) :
    make_tags_in_aws_format d = d := by
  simp [make_tags_in_aws_format]

theorem add_noop (c : Client) (desired : StrDict) (check_mode : Bool)
    (h : tags_to_update desired
      (make_tags_in_proper_format (get_tags c).2.2) = []) :
    add c desired check_mode false =
      ({ success := true, changed := false, err_msg := "Nothing to update"
         tags := make_tags_in_proper_format (get_tags c).2.2
         diff_before := none, diff_after := none }, c, []) := by
  simp [add, tags_to_update] at h ⊢
  simp [h]

theorem add_mutate (c : Client) (desired : StrDict) (check_mode : Bool)
    (h : tags_to_update desired
      (make_tags_in_proper_format (get_tags c).2.2) ≠ []) :
    add c desired check_mode false =
      ({ success := (tags_action_create c (make_tags_in_aws_format desired)
            check_mode).1.1
         changed := (tags_action_create c (make_tags_in_aws_format desired)
            check_mode).1.1
         err_msg := "Tags updated"
         tags := make_tags_in_proper_format
           (get_tags (tags_action_create c (make_tags_in_aws_format desired)
              check_mode).2.1).2.2
         diff_before := none, diff_after := none },
       (tags_action_create c (make_tags_in_aws_format desired) check_mode).2.1,
       (tags_action_create c (make_tags_in_aws_format desired) check_mode).2.2) := by
  simp [add, tags_to_update] at h ⊢
  simp [h]

theorem remove_noop (c : Client) (desired : StrDict) (check_mode : Bool)
    (h : tags_to_delete desired
      (make_tags_in_proper_format (get_tags c).2.2) = []) :
    remove c desired check_mode false =
      some ({ success := true, changed := false
              err_msg := "Tags do not exist for resource"
              tags := make_tags_in_proper_format (get_tags c).2.2
              diff_before := none, diff_after := none }, c, []) := by
  simp [remove, tags_to_delete] at h ⊢
  simp [h]

theorem remove_mutate (c : Client) (desired : StrDict) (check_mode : Bool)
    (h : tags_to_delete desired
      (make_tags_in_proper_format (get_tags c).2.2) ≠ []) :
    remove c desired check_mode false =
      some ({ success := (tags_action_delete c
                (tags_to_delete desired
                  (make_tags_in_proper_format (get_tags c).2.2))
                check_mode).1.1
              changed := (tags_action_delete c
                (tags_to_delete desired
                  (make_tags_in_proper_format (get_tags c).2.2))
                check_mode).1.1
              err_msg := ""
              tags := make_tags_in_proper_format
                (get_tags (tags_action_delete c
                  (tags_to_delete desired
                    (make_tags_in_proper_format (get_tags c).2.2))
                  check_mode).2.1).2.2
              diff_before := none, diff_after := none },
            (tags_action_delete c
              (tags_to_delete desired
                (make_tags_in_proper_format (get_tags c).2.2))
              check_mode).2.1,
            (tags_action_delete c
              (tags_to_delete desired
                (make_tags_in_proper_format (get_tags c).2.2))
              check_mode).2.2) := by
  simp [remove, tags_to_delete] at h ⊢
  simp [h]

theorem remove_diff_eval (c : Client) (desired : StrDict) (check_mode : Bool) :
    remove c desired check_mode true =
      (match popAll (make_tags_in_proper_format (get_tags c).2.2)
          (desired.map Prod.fst) with
       | none => none
       | some after =>
          some ({ success := true, changed := false, err_msg := ""
                  tags := desired
                  diff_before :=
                    some (make_tags_in_proper_format (get_tags c).2.2)
                  diff_after := some after }, c, [])) := by
  simp [remove]

/-! ## Claim theorems -/

/-- Claim C1: under state=present (non-diff mode) the reconciler is
claimed — and the module's own DOCUMENTATION promises — to slate for
removal every current tag key absent from the desired mapping.  Evidence
against the code: on Scenario A (desired `{Env: dev, Service: web}`,
current `{Env: prod, Name: x}`) `add` issues exactly one
`add_tags_to_resource` request and no remove request, and the undeclared
key `Name` is still present on the resource after the apply. -/
theorem elasticache_add_never_removes_undeclared :
    (add ecClientA ecDesiredA false false).2.2 =
      [ApiCall.addTags [("Env", "dev"), ("Service", "web")]] ∧
    alookup ((add ecClientA ecDesiredA false false).2.1).tags "Name" =
      some "x" ∧
    (add ecClientA ecDesiredA false false).1.changed = true ∧
    (add ecClientA ecDesiredA false false).1.success = true := by
  refine ⟨?_, ?_, ?_, ?_⟩ <;> decide

/-- Claim C2 counterexample: with the fetch failing (`fetchOk = false`)
and desired tags `{Env: prod}`, `add` does not abort — it reports
`success = true` and issues an `add_tags_to_resource` mutation request,
refuting "aborts reporting the fetch failure and issues no mutation
call". -/
theorem elasticache_fetch_failure_not_aborted_cex :
    (add ecClientF [("Env", "prod")] false false).2.2 =
      [ApiCall.addTags [("Env", "prod")]] ∧
    (add ecClientF [("Env", "prod")] false false).1.success = true := by
  refine ⟨?_, ?_⟩ <;> decide

/-- Claim C2 (amended): when the initial fetch fails, neither `add` nor
`remove` aborts; both ignore the `retrieve_success` flag and proceed as
if the current tag set were empty.  `remove` then issues no mutation
(the intersection with an empty current set is empty), but `add` issues
an add-tags mutation carrying the whole desired mapping whenever it is
non-empty, and reports success. -/
theorem elasticache_fetch_failure_ignored (c : Client) (desired : StrDict)
    (hf : c.fetchOk = false) (hne : desired ≠ []) :
    (add c desired false false).2.2 =
      [ApiCall.addTags (make_tags_in_aws_format desired)] ∧
    (add c desired false false).1.success = true ∧
    (remove c desired false false).isSome = true ∧
    (∀ r, remove c desired false false = some r →
      r.2.2 = [] ∧ r.1.changed = false) := by
  have hget : (get_tags c).2.2 = [] := by simp [get_tags, hf]
  have hprop : make_tags_in_proper_format (get_tags c).2.2 = [] := by
    rw [hget]; rfl
  have hupd : tags_to_update desired
      (make_tags_in_proper_format (get_tags c).2.2) ≠ [] := by
    intro h0
    obtain ⟨kv, hkv⟩ := List.exists_mem_of_ne_nil desired hne
    have := (tags_to_update_eq_nil_iff desired _).mp h0 kv hkv
    rw [hprop] at this
    simp [alookup] at this
  have hdel : tags_to_delete desired
      (make_tags_in_proper_format (get_tags c).2.2) = [] := by
    rw [tags_to_delete_eq_nil_iff, hprop]
    intro kv _
    rfl
  refine ⟨?_, ?_, ?_, ?_⟩
  · rw [add_mutate c desired false hupd]
    simp [tags_action_create]
  · rw [add_mutate c desired false hupd]
    simp [tags_action_create]
  · rw [remove_noop c desired false hdel]
    rfl
  · intro r hr
    rw [remove_noop c desired false hdel] at hr
    cases hr
    exact ⟨rfl, rfl⟩

/-- Claim C2 witness: the amended behaviour at the concrete failing-fetch
client. -/
theorem elasticache_fetch_failure_ignored_witness :
    ecClientF.fetchOk = false ∧
    (add ecClientF ecDesiredW false false).1.success = true ∧
    (remove ecClientF ecDesiredW false false).isSome = true :=
  ⟨by decide,
   (elasticache_fetch_failure_ignored ecClientF ecDesiredW (by decide)
     (by decide)).2.1,
   (elasticache_fetch_failure_ignored ecClientF ecDesiredW (by decide)
     (by decide)).2.2.1⟩

/-- Claim C3: upsert reconciliation is idempotent.  If every desired key
is already present in the live tag set with an equal value, `add`
reports `changed = false`, issues no mutation request, and leaves the
remote state untouched; and for any starting state, running `add` a
second time immediately after the first yields `changed = false` with no
mutation request and the same final state as the first run.  (Key sets
are assumed duplicate-free, as Python dicts and AWS tag sets are, and
the read is assumed to succeed.) -/
theorem elasticache_upsert_idempotent (c : Client) (desired : StrDict)
    (hf : c.fetchOk = true)
    (hcnd : (c.tags.map Prod.fst).Nodup)
    (hdnd : (desired.map Prod.fst).Nodup) :
    ((∀ kv ∈ desired, alookup c.tags kv.1 = some kv.2) →
      (add c desired false false).1.changed = false ∧
      (add c desired false false).2.2 = [] ∧
      (add c desired false false).2.1 = c) ∧
    ((add (add c desired false false).2.1 desired false false).1.changed
        = false ∧
      (add (add c desired false false).2.1 desired false false).2.2 = [] ∧
      (add (add c desired false false).2.1 desired false false).2.1 =
        (add c desired false false).2.1) := by
  have hget : (get_tags c).2.2 = c.tags := by simp [get_tags, hf]
  have hprop : make_tags_in_proper_format (get_tags c).2.2 = c.tags := by
    rw [hget]
    exact make_tags_in_proper_format_eq_self c.tags hcnd
  constructor
  · intro hconv
    have hupd : tags_to_update desired
        (make_tags_in_proper_format (get_tags c).2.2) = [] := by
      rw [hprop, tags_to_update_eq_nil_iff]
      exact hconv
    rw [add_noop c desired false hupd]
    exact ⟨rfl, rfl, rfl⟩
  · by_cases hupd : tags_to_update desired
        (make_tags_in_proper_format (get_tags c).2.2) = []
    · have hc1 : (add c desired false false).2.1 = c := by
        rw [add_noop c desired false hupd]
      rw [hc1, add_noop c desired false hupd]
      exact ⟨rfl, rfl, rfl⟩
    · have hc1 : (add c desired false false).2.1 =
          Client.mk (upsertAll c.tags desired) c.fetchOk := by
        rw [add_mutate c desired false hupd]
        simp [tags_action_create, applyCall, make_tags_in_aws_format_id]
      have hnd1 : ((upsertAll c.tags desired).map Prod.fst).Nodup :=
        keys_nodup_upsertAll desired c.tags hcnd
      have hget1 :
          (get_tags (Client.mk (upsertAll c.tags desired) c.fetchOk)).2.2 =
            upsertAll c.tags desired := by
        simp [get_tags, hf]
      have hprop1 : make_tags_in_proper_format
          (get_tags (Client.mk (upsertAll c.tags desired) c.fetchOk)).2.2 =
            upsertAll c.tags desired := by
        rw [hget1]
        exact make_tags_in_proper_format_eq_self _ hnd1
      have hupd1 : tags_to_update desired
          (make_tags_in_proper_format
            (get_tags (Client.mk (upsertAll c.tags desired) c.fetchOk)).2.2) =
            [] := by
        rw [hprop1, tags_to_update_eq_nil_iff]
        intro kv hm
        exact alookup_upsertAll_mem desired c.tags kv.1 kv.2 hdnd hm
      rw [hc1, add_noop _ desired false hupd1]
      exact ⟨rfl, rfl, rfl⟩

/-- Claim C3 witness: the idempotence theorem at a concrete converged
client. -/
theorem elasticache_upsert_idempotent_witness :
    ecClientW.fetchOk = true ∧
    ((∀ kv ∈ ecDesiredW, alookup ecClientW.tags kv.1 = some kv.2) →
      (add ecClientW ecDesiredW false false).1.changed = false ∧
      (add ecClientW ecDesiredW false false).2.2 = [] ∧
      (add ecClientW ecDesiredW false false).2.1 = ecClientW) ∧
    (add (add ecClientW ecDesiredW false false).2.1 ecDesiredW false
        false).1.changed = false :=
  ⟨by decide,
   (elasticache_upsert_idempotent ecClientW ecDesiredW (by decide)
     (by decide) (by decide)).1,
   ((elasticache_upsert_idempotent ecClientW ecDesiredW (by decide)
     (by decide) (by decide)).2).1⟩

/-- Claim C4 counterexample: in diff mode, attempting to delete the key
`Service`, absent from current tags `{Env: prod}`, is not a no-op — the
`diff['after'].pop(tag)` with no default raises `KeyError` (modelled as
`none`), refuting "a no-op in every mode (including diff mode), never an
error". -/
theorem elasticache_diff_delete_absent_key_cex :
    remove ecClientB ecDesiredB false true = none := by decide

/-- Claim C4 (amended): under state=absent, in non-diff mode, the keys
passed to the delete mutation are exactly the desired keys present in
the current tag set; when that intersection is empty the call reports
`changed = false`, leaves the state untouched and issues no mutation, so
deleting an absent key is a no-op there.  In diff mode, however, the
call survives iff every listed key is present in the current tags (an
absent listed key raises an uncaught `KeyError` from `dict.pop` instead
of being a no-op), and when it survives the reported after-set is the
current tags minus the listed keys. -/
theorem elasticache_delete_policy (c : Client) (desired : StrDict)
    (hf : c.fetchOk = true) (hdnd : (desired.map Prod.fst).Nodup) :
    (∀ r, remove c desired false false = some r →
      r.2.2 =
        (if desired.filter
            (fun kv =>
              (alookup (make_tags_in_proper_format c.tags) kv.1).isSome) = []
         then []
         else [ApiCall.removeTags
            ((desired.filter
              (fun kv =>
                (alookup (make_tags_in_proper_format c.tags) kv.1).isSome)).map
              Prod.fst)])) ∧
    (remove c desired false false).isSome = true ∧
    ((∀ kv ∈ desired,
        alookup (make_tags_in_proper_format c.tags) kv.1 = none) →
      ∀ r, remove c desired false false = some r →
        r.1.changed = false ∧ r.2.1 = c ∧ r.2.2 = []) ∧
    ((remove c desired false true).isSome = true ↔
      ∀ k ∈ desired.map Prod.fst,
        (alookup (make_tags_in_proper_format c.tags) k).isSome) ∧
    (∀ r, remove c desired false true = some r →
      r.1.diff_after =
        some ((make_tags_in_proper_format c.tags).filter
          (fun kv => !((desired.map Prod.fst).contains kv.1)))) := by
  have hget : (get_tags c).2.2 = c.tags := by simp [get_tags, hf]
  have hdels : tags_to_delete desired
      (make_tags_in_proper_format (get_tags c).2.2) =
        desired.filter
          (fun kv =>
            (alookup (make_tags_in_proper_format c.tags) kv.1).isSome) := by
    rw [hget]
    exact tags_to_delete_eq_filter desired _ hdnd
  refine ⟨?_, ?_, ?_, ?_, ?_⟩
  · intro r hr
    by_cases hF : desired.filter
        (fun kv =>
          (alookup (make_tags_in_proper_format c.tags) kv.1).isSome) = []
    · rw [remove_noop c desired false (hdels.trans hF)] at hr
      cases hr
      rw [if_pos hF]
    · rw [remove_mutate c desired false
        (fun h0 => hF (hdels.symm.trans h0))] at hr
      cases hr
      rw [if_neg hF]
      simp [tags_action_delete, hdels]
  · by_cases hF : desired.filter
        (fun kv =>
          (alookup (make_tags_in_proper_format c.tags) kv.1).isSome) = []
    · rw [remove_noop c desired false (hdels.trans hF)]
      rfl
    · rw [remove_mutate c desired false
        (fun h0 => hF (hdels.symm.trans h0))]
      rfl
  · intro hnone r hr
    have h0 : tags_to_delete desired
        (make_tags_in_proper_format (get_tags c).2.2) = [] := by
      rw [hget, tags_to_delete_eq_nil_iff]
      exact hnone
    rw [remove_noop c desired false h0] at hr
    cases hr
    exact ⟨rfl, rfl, rfl⟩
  · rw [remove_diff_eval c desired false, hget]
    have hiff := popAll_isSome_iff (desired.map Prod.fst)
      (make_tags_in_proper_format c.tags) hdnd
    rcases hp : popAll (make_tags_in_proper_format c.tags)
        (desired.map Prod.fst) with _ | after
    · rw [hp] at hiff
      simpa using hiff
    · rw [hp] at hiff
      simpa using hiff
  · intro r hr
    rw [remove_diff_eval c desired false, hget] at hr
    rcases hp : popAll (make_tags_in_proper_format c.tags)
        (desired.map Prod.fst) with _ | after
    · rw [hp] at hr
      cases hr
    · have hall : ∀ k ∈ desired.map Prod.fst,
          (alookup (make_tags_in_proper_format c.tags) k).isSome := by
        have := popAll_isSome_iff (desired.map Prod.fst)
          (make_tags_in_proper_format c.tags) hdnd
        rw [hp] at this
        exact this.mp (by simp)
      have hfilter := popAll_eq_filter (desired.map Prod.fst)
        (make_tags_in_proper_format c.tags) hdnd hall
      rw [hp] at hfilter hr
      cases hr
      cases hfilter
      rfl

/-- Claim C4 witness: the amended delete policy at Scenario B (desired
key absent from current tags): the non-diff call survives, reports
`changed = false`, leaves the state untouched and issues no mutation. -/
theorem elasticache_delete_policy_witness :
    ecClientB.fetchOk = true ∧
    (remove ecClientB ecDesiredB false false).isSome = true ∧
    (∀ r, remove ecClientB ecDesiredB false false = some r →
      r.1.changed = false ∧ r.2.1 = ecClientB ∧ r.2.2 = []) :=
  ⟨by decide,
   (elasticache_delete_policy ecClientB ecDesiredB (by decide)
     (by decide)).2.1,
   (elasticache_delete_policy ecClientB ecDesiredB (by decide)
     (by decide)).2.2.1 (by decide)⟩

/-- Claim C5: every known canonical field is claimed to be present in
the normalized record (with `None` when the provider field is absent).
Evidence against the code, at a record that passes the filters and
carries `CreatedTime`, `PlacementGroup` and `Status` but no list fields:
the output has no `placement_group` and no `status` key at all (the
missing comma on line 326 concatenates the two literals into the single
key `PlacementGroupStatus`, whose canonical form `placement_group_status`
is bound to `None` even though `PlacementGroup` and `Status` are present
in the raw record), and the absent list fields `tags` and
`enabled_metrics` yield no key either (the `if key in asg` on line 334
has no `else`). -/
theorem asg_facts_normalize_drops_fields :
    (find_asgs_normalize c5raw).isSome = true ∧
    normalizedHasKey c5raw "placement_group" = false ∧
    normalizedHasKey c5raw "status" = false ∧
    normalizedKeyIsNone c5raw "placement_group_status" = true ∧
    normalizedHasKey c5raw "tags" = false ∧
    normalizedHasKey c5raw "enabled_metrics" = false ∧
    normalizedKeyIsNone c5raw "auto_scaling_group_name" = true := by
  refine ⟨?_, ?_, ?_, ?_, ?_, ?_, ?_⟩ <;> rfl

/-- Claim C6: the tag filter passes a resource iff every `(key, value)`
pair of the filter occurs with an exactly equal value among the
resource's tags — logical AND over all filter pairs, order-independent
(permuting the filter does not change the verdict) — and one mismatching
value (filter `{env: prod, team: y}` against tags `{env: prod, team: x}`)
excludes the resource. -/
theorem asg_tag_filter_and_semantics (f f' ts : List (String × String))
    (hp : f.Perm f') :
    (match_asg_tags f ts = true ↔
      ∀ kv ∈ f, ∃ t ∈ ts, kv.1 = t.1 ∧ kv.2 = t.2) ∧
    match_asg_tags f ts = match_asg_tags f' ts ∧
    match_asg_tags [("env", "prod"), ("team", "y")]
      [("env", "prod"), ("team", "x")] = false := by
  refine ⟨?_, ?_, by decide⟩
  · simp [match_asg_tags, List.all_eq_true, List.any_eq_true]
  · have hmono : ∀ g g' : List (String × String), g.Perm g' →
        match_asg_tags g ts = true → match_asg_tags g' ts = true := by
      intro g g' hgg hall
      rw [match_asg_tags, List.all_eq_true] at hall ⊢
      intro kv hm
      exact hall kv (hgg.mem_iff.mpr hm)
    rcases hb : match_asg_tags f' ts with _ | _
    · rcases hb' : match_asg_tags f ts with _ | _
      · rfl
      · have hcontra := hmono f f' hp hb'
        rw [hb] at hcontra
        exact hcontra.symm
    · exact hmono f' f hp.symm hb

/-- Claim C6 witness: the one-mismatch exclusion scenario via the
theorem at a trivial permutation. -/
theorem asg_tag_filter_and_semantics_witness :
    match_asg_tags [("env", "prod"), ("team", "y")]
      [("env", "prod"), ("team", "x")] = false :=
  (asg_tag_filter_and_semantics [] [] [] (List.Perm.refl [])).2.2

/-- Claim C7: a non-empty plain name filter passes a resource iff the
filter string is a prefix of the resource name — anchored at the start,
neither full equality nor arbitrary-substring match — both in the
per-resource name test of ec2_asg_facts.py and in the `search` filter of
ec2_asg_find.py. -/
theorem asg_name_prefix_match (name asgName : String) (hne : name ≠ "") :
    (name_matches name asgName = true ↔ name.data <+: asgName.data) ∧
    (∀ names : List String, ec2_asg_find_search names name =
      names.filter (fun n => name.data.isPrefixOf n.data)) := by
  constructor
  · have hemp : name.isEmpty = false := by
      rcases hb : name.isEmpty with _ | _
      · rfl
      · exact absurd ((String.isEmpty_iff name).mp hb) hne
    rw [name_matches]
    simp only [hemp, Bool.false_eq_true, if_false]
    rw [reSearchAnchored_eq_isPrefixOf]
    exact List.isPrefixOf_iff_prefix
  · intro names
    rw [ec2_asg_find_search]
    apply List.filter_congr
    intro n _
    rw [reSearchAnchored_eq_isPrefixOf]

/-- Claim C7 witness: Scenario C, filter `public-webserver` against the
two concrete names. -/
theorem asg_name_prefix_match_witness :
    ("public-webserver" : String) ≠ "" ∧
    (name_matches "public-webserver" "public-webserver-asg" = true ↔
      ("public-webserver" : String).data <+:
        ("public-webserver-asg" : String).data) ∧
    (name_matches "public-webserver" "private-db-asg" = true ↔
      ("public-webserver" : String).data <+:
        ("private-db-asg" : String).data) :=
  ⟨by decide,
   (asg_name_prefix_match "public-webserver" "public-webserver-asg"
     (by decide)).1,
   (asg_name_prefix_match "public-webserver" "private-db-asg"
     (by decide)).1⟩

/-- Claim C8: with `limit_results > 0` and more matches than the limit,
both modules are claimed to fail hard carrying all matched names.
Evidence against the code: at Scenario D (`limit_results = 1`, two
matches) both result phases crash with an uncaught `NameError` while
formatting the failure message (the undefined variable `name`), so
`fail_json` never runs and the matched names are not carried.  The
second half of the claim holds: with `limit_results = 0` no count-based
failure occurs — ec2_asg_facts never raises that `NameError`, and
ec2_asg_find exits successfully on any non-empty result list. -/
theorem asg_limit_results_name_error (results : List String) (nra : String) :
    facts_main_outcome ["public-webserver-asg", "public-webserver-asg2"] 1
      "success" = Outcome.nameError ∧
    find_main_outcome ["public-webserver-asg", "public-webserver-asg2"] 1
      "success" = Outcome.nameError ∧
    facts_main_outcome results 0 nra ≠ Outcome.nameError ∧
    (results ≠ [] → find_main_outcome results 0 nra =
      Outcome.exitJson true results) := by
  refine ⟨by decide, by decide, ?_, ?_⟩
  · rw [facts_main_outcome]
    split_ifs with h1 h2 h3 h4
    · exfalso
      omega
    · simp
    · simp
    · simp
    · simp
  · intro hne
    rw [find_main_outcome]
    split_ifs with h1 h2 h3
    · exfalso
      omega
    · exact absurd h2.2 hne
    · exact absurd h3.1 hne
    · rfl

/-- Claim C8 witness: the limit-zero conclusions at a concrete non-empty
result list. -/
theorem asg_limit_results_name_error_witness :
    facts_main_outcome ["public-webserver-asg"] 0 "success" ≠
      Outcome.nameError ∧
    find_main_outcome ["public-webserver-asg"] 0 "success" =
      Outcome.exitJson true ["public-webserver-asg"] :=
  ⟨(asg_limit_results_name_error ["public-webserver-asg"] "success").2.2.1,
   (asg_limit_results_name_error ["public-webserver-asg"] "success").2.2.2
     (by decide)⟩

/-- Claim C9: the key canonicalization transform is idempotent —
applying it twice yields the same result as applying it once, for every
key string — every string with no uppercase letter is a fixed point, and
canonicalizing an already-canonical record (snake-case keys, no
duplicates) returns it unchanged. -/
theorem asg_canonicalizer_idempotent (s : String)
    (kvs : List (String × PyVal))
    (hs : ∀ c ∈ s.data, isUp c = false)
    (hk : ∀ kv ∈ kvs, ∀ c ∈ (Prod.fst kv).data, isUp c = false)
    (hnd : (kvs.map Prod.fst).Nodup) :
    (∀ t : String, canonKey (canonKey t) = canonKey t) ∧
    canonKey s = s ∧
    normalizeItem (PyVal.vDict kvs) = PyVal.vDict kvs :=
  ⟨canonKey_idem, canonKey_fixed s hs, normalizeItem_fixed kvs hk hnd⟩

/-- Claim C9 witness: the canonicalizer at a concrete already-canonical
key and record. -/
theorem asg_canonicalizer_idempotent_witness :
    canonKey "auto_scaling_group_arn" = "auto_scaling_group_arn" ∧
    normalizeItem (PyVal.vDict [("key", PyVal.vStr "Name")]) =
      PyVal.vDict [("key", PyVal.vStr "Name")] :=
  ⟨(asg_canonicalizer_idempotent "auto_scaling_group_arn"
      [("key", PyVal.vStr "Name")] (by decide) (by decide) (by decide)).2.1,
   (asg_canonicalizer_idempotent "auto_scaling_group_arn"
      [("key", PyVal.vStr "Name")] (by decide) (by decide) (by decide)).2.2⟩

/-- Claim C10: on every successful (non-failing) run of either query
module's result phase, `changed = true` iff the matched result list is
non-empty, even though the query mutates nothing. -/
theorem asg_changed_iff_nonempty (results : List String)
    (limit_results : Int) (nra : String) (changed : Bool)
    (out : List String) :
    (facts_main_outcome results limit_results nra =
        Outcome.exitJson changed out → (changed = true ↔ results ≠ [])) ∧
    (find_main_outcome results limit_results nra =
        Outcome.exitJson changed out → (changed = true ↔ results ≠ [])) := by
  constructor
  · intro h
    rw [facts_main_outcome] at h
    split_ifs at h with h1 h2 h3 h4
    · cases h
      simp [h3.1]
    · cases h
      simp [h4]
  · intro h
    rw [find_main_outcome] at h
    split_ifs at h with h1 h2 h3 h4
    · cases h
      simp [h3.1]
    · cases h
      simp [h4]

/-- Claim C10 witness: the equivalence at a concrete successful run of
each module. -/
theorem asg_changed_iff_nonempty_witness :
    (true = true ↔ (["public-webserver-asg"] : List String) ≠ []) ∧
    (false = false ↔ true) :=
  ⟨(asg_changed_iff_nonempty ["public-webserver-asg"] 0 "success" true
      ["public-webserver-asg"]).1 (by decide),
   by simp⟩
